import Mathlib

/-!
Verification of the `bsa` Bethesda-archive codec against its specification.

All machine integers are modelled as `Nat` with explicit reductions
(`% 256`, `% 2^32`, `% 2^64`) at the points where the Rust code performs
wrapping arithmetic.  Byte strings are `List Nat` whose elements are the
byte values.  Fallible Rust functions returning `Option`/`Result` are
modelled as `Option`/`Except`.
-/

namespace Bsa

/-- Rust `u8::to_ascii_lowercase`: map ASCII `A..Z` to `a..z`, other bytes unchanged. -/
def asciiLower (b : Nat) : Nat :=
  if 65 ≤ b ∧ b ≤ 90 then b + 32 else b

/-- Little-endian byte encoding of `v` on `n` bytes (`u32::to_le_bytes` etc.). -/
def natLeBytes (v n : Nat) : List Nat :=
  (List.range n).map fun i => (v >>> (8 * i)) % 256

/-- Rust `u32::rotate_right` on a value `x < 2^32`. -/
def rotr32 (x n : Nat) : Nat :=
  let n := n % 32
  (x >>> n ||| (x <<< (32 - n))) % 4294967296

/-! ## TES3 hash (`src/src/tes3/mod.rs`, `compute_hash`) -/

/-- The byte normalizer closure of `compute_hash` in `src/src/tes3/mod.rs`:
`/` maps to `\`, NUL is rejected, other ASCII bytes are lowercased,
non-ASCII bytes are rejected. -/
def tes3NormByte (b : Nat) : Option Nat :=
  if b = 47 then some 92
  else if b = 0 then none
  else if b < 128 then some (asciiLower b)
  else none

/-- One step of the low-half accumulator: `low[i % 4] ^= byte`. -/
def tes3LowStep (acc : List Nat) (i b : Nat) : List Nat :=
  acc.set (i % 4) (Nat.xor (acc.getD (i % 4) 0) b)

/-- The low-half loop of `compute_hash`: normalize each byte and fold it into
the 4-byte accumulator, failing if any byte fails to normalize. -/
def tes3LowGo : List Nat → Nat → List Nat → Option (List Nat)
  | [], _, acc => some acc
  | b :: rest, i, acc =>
    match tes3NormByte b with
    | none => none
    | some nb => tes3LowGo rest (i + 1) (tes3LowStep acc i nb)

/-- Rust `u32::from_le_bytes` on the 4-byte accumulator. -/
def leU32 (acc : List Nat) : Nat :=
  acc.getD 0 0 + acc.getD 1 0 * 256 + acc.getD 2 0 * 65536 +
    acc.getD 3 0 * 16777216

/-- One step of the high-half loop:
`temp = (byte as u32) << ((i % 4) << 3); high = (high ^ temp).rotate_right(temp & 0x1f)`. -/
def tes3HighStep (high i b : Nat) : Nat :=
  let temp := (b <<< ((i % 4) * 8)) % 4294967296
  rotr32 (Nat.xor high temp) (Nat.land temp 0x1f)

/-- The high-half loop of `compute_hash`. -/
def tes3HighGo : List Nat → Nat → Nat → Option Nat
  | [], _, high => some high
  | b :: rest, i, high =>
    match tes3NormByte b with
    | none => none
    | some nb => tes3HighGo rest (i + 1) (tes3HighStep high i nb)

/-- Rust `compute_hash` from `src/src/tes3/mod.rs`: split the byte string at
`len / 2`, fold the first half into the xor accumulator (low 32 bits) and the
second half through the rotate accumulator (high 32 bits). -/
def tes3ComputeHash (bytes : List Nat) : Option Nat :=
  let first := bytes.take (bytes.length / 2)
  let second := bytes.drop (bytes.length / 2)
  match tes3LowGo first 0 [0, 0, 0, 0] with
  | none => none
  | some acc =>
    let low := leU32 acc
    match tes3HighGo second 0 0 with
    | none => none
    | some high => some (low ||| (high <<< 32))

/-- Rust `NameHash::compare_key`: the 64-bit hash rotated right by 32
(upper and lower halves swapped). -/
def tes3CompareKey (h : Nat) : Nat :=
  (h >>> 32) ||| ((h <<< 32) % 18446744073709551616)

end Bsa

namespace Bsa

/-! ## Windows-1252 codec (`backup/gen0/common.rs` table, `versions/v0/raw/win1252.rs`) -/

/-- The 128-entry table mapping bytes `0x80..0xFF` to Unicode scalars
(`windows_1252::TABLE` in `backup/gen0/common.rs`). -/
def win1252Table : List Nat :=
  [0x20AC, 0x0081, 0x201A, 0x0192, 0x201E, 0x2026, 0x2020, 0x2021, 0x02C6, 0x2030, 0x0160,
   0x2039, 0x0152, 0x008D, 0x017D, 0x008F, 0x0090, 0x2018, 0x2019, 0x201C, 0x201D, 0x2022,
   0x2013, 0x2014, 0x02DC, 0x2122, 0x0161, 0x203A, 0x0153, 0x009D, 0x017E, 0x0178, 0x00A0,
   0x00A1, 0x00A2, 0x00A3, 0x00A4, 0x00A5, 0x00A6, 0x00A7, 0x00A8, 0x00A9, 0x00AA, 0x00AB,
   0x00AC, 0x00AD, 0x00AE, 0x00AF, 0x00B0, 0x00B1, 0x00B2, 0x00B3, 0x00B4, 0x00B5, 0x00B6,
   0x00B7, 0x00B8, 0x00B9, 0x00BA, 0x00BB, 0x00BC, 0x00BD, 0x00BE, 0x00BF, 0x00C0, 0x00C1,
   0x00C2, 0x00C3, 0x00C4, 0x00C5, 0x00C6, 0x00C7, 0x00C8, 0x00C9, 0x00CA, 0x00CB, 0x00CC,
   0x00CD, 0x00CE, 0x00CF, 0x00D0, 0x00D1, 0x00D2, 0x00D3, 0x00D4, 0x00D5, 0x00D6, 0x00D7,
   0x00D8, 0x00D9, 0x00DA, 0x00DB, 0x00DC, 0x00DD, 0x00DE, 0x00DF, 0x00E0, 0x00E1, 0x00E2,
   0x00E3, 0x00E4, 0x00E5, 0x00E6, 0x00E7, 0x00E8, 0x00E9, 0x00EA, 0x00EB, 0x00EC, 0x00ED,
   0x00EE, 0x00EF, 0x00F0, 0x00F1, 0x00F2, 0x00F3, 0x00F4, 0x00F5, 0x00F6, 0x00F7, 0x00F8,
   0x00F9, 0x00FA, 0x00FB, 0x00FC, 0x00FD, 0x00FE, 0x00FF]

/-- Rust `windows_1252::encode`: ASCII characters map to themselves, other characters
are looked up in the table (position + 128); characters not in Windows-1252 fail. -/
def win1252Encode (c : Char) : Option Nat :=
  if c.toNat < 128 then some c.toNat
  else (win1252Table.findIdx? (fun v => v = c.toNat)).map (· + 128)

/-- Rust `to_lowercase` from `versions/v0/raw/win1252.rs` (byte-level Windows-1252 fold). -/
def win1252ToLowercaseV0 (b : Nat) : Nat :=
  if 65 ≤ b ∧ b ≤ 90 then b + (97 - 65)
  else if b = 0x8a ∨ b = 0x8c ∨ b = 0x8e then b + 0x10
  else if (0xc0 ≤ b ∧ b ≤ 0xd6) ∨ (0xd8 ≤ b ∧ b ≤ 0xdf) then b + 0x20
  else b

/-- Rust `windows_1252::to_lowercase` from `backup/gen0/common.rs` (the older copy:
note it uses `0x9e` instead of `0x8e` and the range `0xc0..=0xd0`). -/
def win1252ToLowercaseGen0 (b : Nat) : Nat :=
  if 65 ≤ b ∧ b ≤ 90 then b + (97 - 65)
  else if b = 0x8a ∨ b = 0x8c ∨ b = 0x9e then b + 0x10
  else if 0xc0 ≤ b ∧ b ≤ 0xd0 then b + 0x20
  else b

/-- Model of Rust std `char::to_lowercase`, exact on every character that is
encodable in Windows-1252 (ASCII, the Latin-1 uppercase letters `À..Þ` except
`×`, and `Š Œ Ž Ÿ`); all other characters are mapped to themselves.  The
claims under verification only apply it to characters in this domain. -/
def rustCharToLowercase (c : Char) : List Char :=
  let v := c.toNat
  if 65 ≤ v ∧ v ≤ 90 then [Char.ofNat (v + 32)]
  else if (0xC0 ≤ v ∧ v ≤ 0xDE) ∧ v ≠ 0xD7 then [Char.ofNat (v + 0x20)]
  else if v = 0x160 ∨ v = 0x152 ∨ v = 0x17D then [Char.ofNat (v + 1)]
  else if v = 0x178 then [Char.ofNat 0xFF]
  else [c]

/-! ## TES4 path normalization and hashes (`crates/tes4-bsa/src/hash.rs`) -/

/-- The separator predicate `|ch| ch == '\\' || ch == '/'`. -/
def isSepChar (c : Char) : Bool :=
  c = '\\' ∨ c = '/'

/-- Rust `str::split` on the separator predicate: the list of components, empty
components included (as Rust's `split` yields them). -/
def splitComps (s : List Char) : List (List Char) :=
  s.foldr
    (fun c acc =>
      if isSepChar c then [] :: acc
      else
        match acc with
        | [] => [[c]]
        | g :: gs => (c :: g) :: gs)
    [[]]

/-- The inner loops of `normalize_path`: for each character of a component,
each character of its Unicode lowercase form is encoded to Windows-1252. -/
def encodeLowered (cs : List Char) : Option (List Nat) :=
  (cs.flatMap rustCharToLowercase).mapM win1252Encode

/-- The component loop of `normalize_path`: skip empty components, reject
`.` and `..`, join the encoded lowercased components with `\`. -/
def normalizePathGo : List (List Char) → List Nat → Option (List Nat)
  | [], buf => some buf
  | comp :: rest, buf =>
    if comp = [] then normalizePathGo rest buf
    else if comp = ['.'] ∨ comp = ['.', '.'] then none
    else
      let buf := if buf = [] then buf else buf ++ [92]
      match encodeLowered comp with
      | none => none
      | some bs => normalizePathGo rest (buf ++ bs)

/-- Rust `normalize_path` from `crates/tes4-bsa/src/hash.rs`. -/
def normalizePath (s : List Char) : Option (List Nat) :=
  if (s.head?.map isSepChar).getD false then none
  else normalizePathGo (splitComps s) []

/-- The custom polynomial accumulator `crc32` from `crates/tes4-bsa/src/hash.rs`:
`crc = byte + crc * 0x1003F`, wrapping, starting at 0. -/
def crc32 (bytes : List Nat) : Nat :=
  bytes.foldl (fun crc b => (b + crc * 0x1003f) % 4294967296) 0

/-- The TES4 `Hash` record: `last`, `last2`, `len`, `first` are bytes and
`crc` is a `u32`. -/
structure Tes4Hash where
  last : Nat
  last2 : Nat
  len : Nat
  first : Nat
  crc : Nat
  deriving DecidableEq, Repr

/-- Rust `hash_directory_name_unchecked` from `crates/tes4-bsa/src/hash.rs`. -/
def hashDirectoryNameUnchecked (name : List Nat) : Tes4Hash :=
  let length := name.length % 256
  let p1 :=
    if 3 ≤ name.length then
      (name.getD (name.length - 2) 0, crc32 ((name.drop 1).take (name.length - 3)))
    else (0, 0)
  let p2 :=
    if name ≠ [] then (name.getD 0 0, name.getD (name.length - 1) 0)
    else (0, 0)
  { last := p2.2, last2 := p1.1, len := length, first := p2.1, crc := p1.2 }

/-- Rust `hash_directory_name` from `crates/tes4-bsa/src/hash.rs`: normalize, then
reject empty or over-`MAX_PATH` (260) normalized paths. -/
def hashDirectoryName (path : List Char) : Option Tes4Hash :=
  match normalizePath path with
  | none => none
  | some p =>
    if p = [] ∨ 260 ≤ p.length then none
    else some (hashDirectoryNameUnchecked p)

/-- Rust `split_extension` from `crates/tes4-bsa/src/hash.rs`: split at the LAST
`.`; the extension includes the dot. -/
def splitExtLast (name : List Nat) : List Nat × List Nat :=
  match name.reverse.findIdx? (fun b => b = 46) with
  | none => (name, [])
  | some j =>
    let i := name.length - 1 - j
    (name.take i, name.drop i)

/-- The fixed extension table `{"" -> 0, ".nif" -> 1, ".kf" -> 2, ".dds" -> 3,
".wav" -> 4, ".adp" -> 5}` shared by both TES4 filename hashers. -/
def extIndex (ext : List Nat) : Option Nat :=
  if ext = [] then some 0
  else if ext = [46, 110, 105, 102] then some 1
  else if ext = [46, 107, 102] then some 2
  else if ext = [46, 100, 100, 115] then some 3
  else if ext = [46, 119, 97, 118] then some 4
  else if ext = [46, 97, 100, 112] then some 5
  else none

/-- Rust `hash_file_name_unchecked` from `crates/tes4-bsa/src/hash.rs`: the
directory hash of the stem, the extension crc added in, and the fixed
per-extension adjustments (all byte arithmetic wrapping). -/
def hashFileNameUnchecked (stem ext : List Nat) : Tes4Hash :=
  let h := hashDirectoryNameUnchecked stem
  let h := { h with crc := (h.crc + crc32 ext) % 4294967296 }
  match extIndex ext with
  | none => h
  | some i =>
    { h with
      first := (h.first + 32 * Nat.land i 0xfc) % 256
      last := (h.last + (Nat.land i 0xfe <<< 6) % 256) % 256
      last2 := (h.last2 + (i <<< 7) % 256) % 256 }

/-- Rust `hash_file_name` from `crates/tes4-bsa/src/hash.rs`: reject embedded
separators, lowercase and encode to Windows-1252, split at the last dot and
apply the size bounds before hashing. -/
def hashFileName (name : List Char) : Option Tes4Hash :=
  if name.any isSepChar then none
  else
    match encodeLowered name with
    | none => none
    | some nb =>
      let (stem, ext) := splitExtLast nb
      if stem = [] ∨ 260 ≤ stem.length ∨ 16 ≤ ext.length then none
      else some (hashFileNameUnchecked stem ext)

end Bsa

namespace Bsa

/-! ## TES4 hashes, second implementation (`src/src/tes4/mod.rs`) -/

/-- Rust `crc32` from `src/src/tes4/mod.rs`: `crc = crc * 0x1003F + byte`, wrapping. -/
def crc32Src (bytes : List Nat) : Nat :=
  bytes.foldl (fun crc b => (crc * 0x1003f + b) % 4294967296) 0

/-- Rust `path::split_extension` from `src/src/tes4/mod.rs`: split at the FIRST
`.` (`memchr(b'.', bytes)`); the extension includes the dot. -/
def splitExtFirst (name : List Nat) : List Nat × List Nat :=
  match name.findIdx? (fun b => b = 46) with
  | none => (name, [])
  | some i => (name.take i, name.drop i)

/-- Rust `Hash::from_dirname` from `src/src/tes4/mod.rs`: rejects names of length
at least 255, non-ASCII bytes, and embedded NULs, then computes the
endpoint/crc hash. -/
def fromDirname (name : List Nat) : Option Tes4Hash :=
  if 255 ≤ name.length ∨ name.any (fun b => 128 ≤ b) ∨ name.contains 0 then none
  else
    let p1 :=
      if 3 ≤ name.length then
        (name.getD (name.length - 2) 0, crc32Src ((name.drop 1).take (name.length - 3)))
      else (0, 0)
    let p2 :=
      if name ≠ [] then (name.getD 0 0, name.getD (name.length - 1) 0)
      else (0, 0)
    some { last := p2.2, last2 := p1.1, len := name.length % 256,
           first := p2.1, crc := p1.2 }

/-- Rust `Hash::from_filename` from `src/src/tes4/mod.rs`: split at the first dot,
apply the bounds, hash the stem as a dirname (the source unwraps the result:
when `from_dirname` fails the Rust code panics; that case is modelled as
`none` here and lies outside every statement proved about this function),
then add the extension crc and the fixed per-extension adjustments. -/
def fromFilename (baseName : List Nat) : Option Tes4Hash :=
  let se := splitExtFirst baseName
  let stem := se.1
  let ext := se.2
  if stem ≠ [] ∧ stem.length < 260 ∧ ext.length < 16 then
    match fromDirname stem with
    | none => none
    | some h =>
      let h := { h with crc := (h.crc + crc32Src ext) % 4294967296 }
      match extIndex ext with
      | none => some h
      | some i =>
        some { h with
          first := (h.first + 32 * Nat.land i 0xfc) % 256
          last := (h.last + (Nat.land i 0xfe <<< 6) % 256) % 256
          last2 := (h.last2 + (i <<< 7) % 256) % 256 }
  else none

/-- The byte-level behaviour of `hash_file_name` (`crates/tes4-bsa/src/hash.rs`)
on an ASCII byte string: the separator check, the per-character lowercasing
(for ASCII bytes, `char::to_lowercase` then `windows_1252::encode` is exactly
ASCII-lowercasing the byte), the split at the last dot, and the bounds. -/
def hashFileNameBytes (name : List Nat) : Option Tes4Hash :=
  if name.any (fun b => b = 92 ∨ b = 47) then none
  else
    let nb := name.map asciiLower
    let se := splitExtLast nb
    let stem := se.1
    let ext := se.2
    if stem = [] ∨ 260 ≤ stem.length ∨ 16 ≤ ext.length then none
    else some (hashFileNameUnchecked stem ext)

end Bsa

namespace Bsa

/-! ## TES3 writer (`src/src/tes3/writer.rs`) -/

/-- A writer entry as stored by `Tes3Writer`: the normalized NUL-terminated
name (the `HashMap` key), the name hash, and the payload bytes. -/
structure W3Entry where
  name : List Nat
  hash : Nat
  data : List Nat
  deriving DecidableEq, Repr

/-- Rust `Tes3Writer::add_inner`: hash the path with `compute_hash`, then build the
stored name by replacing separators with `\`, ASCII-lowercasing the other
bytes and appending a NUL.  (`std::path::is_separator` matches `/` on Unix;
`\` bytes are left unchanged by lowercasing on either platform.) -/
def tes3AddInner (path data : List Nat) : Option W3Entry :=
  match tes3ComputeHash path with
  | none => none
  | some h =>
    let name := (path.map fun b => if b = 47 then 92 else asciiLower b) ++ [0]
    some { name := name, hash := h, data := data }

/-- Insertion into a sorted list (used to model `sort_unstable_by`; the keys
occurring in the verified statements are distinct, for which any comparison
sort produces the same result). -/
def insertSorted {α : Type} (le : α → α → Bool) (a : α) : List α → List α
  | [] => [a]
  | b :: bs => if le a b then a :: b :: bs else b :: insertSorted le a bs

/-- Sorting by a boolean comparison, as insertion sort. -/
def sortedBy {α : Type} (le : α → α → Bool) : List α → List α
  | [] => []
  | a :: xs => insertSorted le a (sortedBy le xs)

/-- Lexicographic order on byte strings (`Ord` for `Vec<u8>`). -/
def bytesLe : List Nat → List Nat → Bool
  | [], _ => true
  | _ :: _, [] => false
  | a :: xs, b :: ys => if a < b then true else if b < a then false else bytesLe xs ys

/-- The running data offsets of `write_to`: each entry is assigned the sum of
the payload lengths of the entries before it (in the order given). -/
def cumDataOffsets : List W3Entry → Nat → List Nat
  | [], _ => []
  | e :: rest, off => off :: cumDataOffsets rest (off + e.data.length)

/-- The running name offsets of `write_to`: each entry is assigned the length
of the name block before its own name is appended. -/
def cumNameOffsets : List W3Entry → Nat → List Nat
  | [], _ => []
  | e :: rest, off => off :: cumNameOffsets rest (off + e.name.length)

/-- Rust `Tes3Writer::write_to`: header, records, name offsets, name block, hash
table, payloads.  Data offsets are computed over the name-sorted order, the
records/name-offsets/names/hashes are emitted in hash (`compare_key`) order,
and the payloads are emitted in name-sorted order, exactly as the source
does.  `file_names_len` is the sum of the stored (NUL-terminated) name
lengths, as accumulated by `add_inner`. -/
def tes3WriteTo (entries : List W3Entry) : List Nat :=
  let fileNamesLen := (entries.map (fun e => e.name.length)).sum
  let hto := fileNamesLen + 8 * entries.length + 4 * entries.length
  let header := natLeBytes 256 4 ++ natLeBytes hto 4 ++ natLeBytes entries.length 4
  let byName := sortedBy (fun a b => bytesLe a.name b.name) entries
  let dataOffsets := cumDataOffsets byName 0
  let byHash :=
    sortedBy (fun a b => decide (tes3CompareKey a.hash ≤ tes3CompareKey b.hash)) byName
  let records :=
    (dataOffsets.zip byHash).flatMap fun oe =>
      natLeBytes oe.2.data.length 4 ++ natLeBytes oe.1 4
  let nameOffsets := (cumNameOffsets byHash 0).flatMap (natLeBytes · 4)
  let names := byHash.flatMap (fun e => e.name)
  let hashes := byHash.flatMap (fun e => natLeBytes e.hash 8)
  let payload := (sortedBy (fun a b => bytesLe a.name b.name) byHash).flatMap (fun e => e.data)
  header ++ records ++ nameOffsets ++ names ++ hashes ++ payload

/-- The whole writer pipeline on a list of (path, payload) inputs with
distinct normalized names: `add` each entry, then `write_to`. -/
def tes3WriterOutput (files : List (List Nat × List Nat)) : Option (List Nat) :=
  match files.mapM (fun pd => tes3AddInner pd.1 pd.2) with
  | none => none
  | some entries => some (tes3WriteTo entries)

/-! ## TES3 reader (`src/src/read/tes3/bsa.rs`) -/

/-- The read-error cases of `InvalidArchiveError` reachable from `Bsa::new`,
plus `eof` for a failing `read_exact`. -/
inductive Tes3ReadErr where
  | invalidMagic
  | badOffset
  | missingNul
  | badEncoding
  | eof
  deriving DecidableEq, Repr

/-- Rust `read_exact`/`read_vec` at a stream position: exactly `n` bytes starting
at `pos`, failing when fewer remain. -/
def readVecAt (data : List Nat) (pos n : Nat) : Option (List Nat) :=
  if pos + n ≤ data.length then some ((data.drop pos).take n) else none

/-- Little-endian interpretation of a byte list. -/
def leNat (l : List Nat) : Nat :=
  l.foldr (fun b acc => b + acc * 256) 0

/-- Rust `read_name` from `src/src/read/tes3/bsa.rs`: bounds-check the offset,
find the terminating NUL, reject non-ASCII names. -/
def tes3ReadName (names : List Nat) (off : Nat) : Except Tes3ReadErr (List Nat) :=
  if names.length ≤ off then .error .badOffset
  else
    let tl := names.drop off
    match tl.findIdx? (fun b => b = 0) with
    | none => .error .missingNul
    | some len =>
      let name := tl.take len
      if name.any (fun b => 128 ≤ b) then .error .badEncoding
      else .ok name

/-- The parsed state of `Bsa`: per-index `(offset, size)` pairs and the
name-to-index association. -/
structure Tes3Bsa where
  files : List (Nat × Nat)
  names : List (List Nat × Nat)
  deriving DecidableEq, Repr

/-- The per-index loop of `Bsa::new`. -/
def tes3BuildFiles (fc : Nat) (records nameOffsets nameBlock : List Nat) :
    Except Tes3ReadErr Tes3Bsa := do
  let mut files : List (Nat × Nat) := []
  let mut names : List (List Nat × Nat) := []
  for i in List.range fc do
    let size := leNat ((records.drop (8 * i)).take 4)
    let offset := leNat ((records.drop (8 * i + 4)).take 4)
    let nameOff := leNat ((nameOffsets.drop (4 * i)).take 4)
    let name ← tes3ReadName nameBlock nameOff
    files := files ++ [(offset, size)]
    names := names ++ [(name, i)]
  return { files := files, names := names }

/-- Rust `Bsa::new` from `src/src/read/tes3/bsa.rs`.  Note the source computes the
metadata length as `8 * file_count + 12` and later subtracts the header's
`hash_table_offset` from it with `checked_sub`.  (The `split_at` calls,
which panic in Rust when the computed lengths overrun the buffer, are not
reached in any state exercised by the statements below: the `checked_sub`
fails first.) -/
def srcTes3BsaNew (data : List Nat) : Except Tes3ReadErr Tes3Bsa :=
  match readVecAt data 0 12 with
  | none => .error .eof
  | some hdr =>
    let magic := leNat (hdr.take 4)
    let hto := leNat ((hdr.drop 4).take 4)
    let fc := leNat (hdr.drop 8)
    if magic ≠ 256 then .error .invalidMagic
    else if 4294967296 ≤ 8 * fc then .error .badOffset
    else if 4294967296 ≤ 8 * fc + 12 then .error .badOffset
    else
      let metaLen := 8 * fc + 12
      match readVecAt data 12 metaLen with
      | none => .error .eof
      | some meta =>
        let records := meta.take (8 * fc)
        let rest := meta.drop (8 * fc)
        let nameOffsets := rest.take (4 * fc)
        let rest2 := rest.drop (4 * fc)
        if metaLen < hto then .error .badOffset
        else
          let namesLen := metaLen - hto
          let nameBlock := rest2.take namesLen
          let rest3 := rest2.drop namesLen
          if rest3.length ≠ 8 * fc then .error .badOffset
          else tes3BuildFiles fc records nameOffsets nameBlock

/-- Rust `Bsa::by_index_raw` from `src/src/read/tes3/bsa.rs`: seek to the stored
`offset` from the start of the stream and take `size` bytes. -/
def srcTes3ByIndexRaw (data : List Nat) (file : Nat × Nat) : List Nat :=
  (data.drop file.1).take file.2

/-! ## TES3 reader arithmetic (`versions/v0/read/tes3.rs`) -/

/-- Rust `ArchiveMeta::new_inner`: `data_offset = file_count * 8 + hash_table_offset`
with `u32` checked arithmetic. -/
def v0DataOffset (fc hto : Nat) : Option Nat :=
  if 4294967296 ≤ fc * 8 then none
  else if 4294967296 ≤ fc * 8 + hto then none
  else some (fc * 8 + hto)

/-- Rust `ArchiveMeta::file`: the absolute payload position handed to `read_at`,
`record.offset + data_offset`, with `u32` checked addition. -/
def v0FileOffset (recOffset : Nat) (dataOffset : Nat) : Option Nat :=
  if 4294967296 ≤ recOffset + dataOffset then none
  else some (recOffset + dataOffset)

/-! ## Entry iterators (claim C9) -/

/-- Rust `ArchiveFiles::next` from `versions/v0/read/tes3.rs`: the index is
incremented BEFORE the bound check and the yield, so the value yielded is the
new index.  (The `saturating_add` saturation point `u32::MAX` is never
reached for the file counts considered.) -/
def v0FilesNext (fileCount index : Nat) : Option Nat :=
  let index := index + 1
  if fileCount ≤ index then none else some index

/-- The list of indices yielded by iterating `ArchiveFiles` from its initial
state `index = 0`. -/
def v0FilesGo (fileCount : Nat) : Nat → Nat → List Nat
  | 0, _ => []
  | fuel + 1, idx =>
    match v0FilesNext fileCount idx with
    | none => []
    | some i => i :: v0FilesGo fileCount fuel i

/-- All indices yielded by the `versions/v0` TES3 entry iterator on an
archive of `fileCount` files. -/
def v0FilesList (fileCount : Nat) : List Nat :=
  v0FilesGo fileCount (fileCount + 1) 0

/-- Rust `EntriesImpl::next` from `crates/tes4-bsa/src/raw_archive.rs`, with the
directory list abstracted to its per-directory file counts.  The loop
increments the file index before checking it against the directory size, and
resets it to 0 when moving to the next directory (so the following loop
iteration pre-increments it to 1). -/
def t4NextGo (dirs : List Nat) : Nat → Nat → Nat → Option (Nat × Nat)
  | 0, _, _ => none
  | fuel + 1, folder, file =>
    if dirs.length ≤ folder then none
    else
      let dcount := dirs.getD folder 0
      let file1 := file + 1
      if file1 < dcount then some (folder, file1)
      else t4NextGo dirs fuel (folder + 1) 0

/-- Rust `EntriesImpl::next` with enough fuel for its folder-advancing loop. -/
def t4Next (dirs : List Nat) (idx : Nat × Nat) : Option (Nat × Nat) :=
  t4NextGo dirs (dirs.length + 1) idx.1 idx.2

/-- The seed index of `BsaArchive::entries` in `crates/tes4-bsa/src/archive.rs`:
the first non-empty directory at file index 0. -/
def t4Seed (dirs : List Nat) : Option (Nat × Nat) :=
  (dirs.findIdx? (fun c => decide (c ≠ 0))).map (fun i => (i, 0))

/-- The `bsa_core::read::Entries` driver: yield the current index, then
advance with `next`. -/
def t4EntriesGo (dirs : List Nat) : Nat → Option (Nat × Nat) → List (Nat × Nat)
  | 0, _ => []
  | _ + 1, none => []
  | fuel + 1, some cur => cur :: t4EntriesGo dirs fuel (t4Next dirs cur)

/-- All `(folder, file)` indices yielded by the `crates/tes4-bsa` entry
iterator. -/
def t4Entries (dirs : List Nat) : List (Nat × Nat) :=
  t4EntriesGo dirs (dirs.sum + dirs.length + 1) (t4Seed dirs)

/-- The `Entries` iterator of `src/src/tes4/archive.rs` (state: directory
index and position of its `Enumerate` file iterator; seeded at directory 0,
position 0 as by `entries()`). -/
def srcT4Go (dirs : List Nat) : Nat → Nat → Nat → List (Nat × Nat)
  | 0, _, _ => []
  | fuel + 1, dirIdx, j =>
    if j < dirs.getD dirIdx 0 then (dirIdx, j) :: srcT4Go dirs fuel dirIdx (j + 1)
    else
      let d := dirIdx + 1
      if dirs.length ≤ d then []
      else srcT4Go dirs fuel d 0

/-- All `(folder, file)` indices yielded by the `src/src/tes4` entry
iterator. -/
def srcT4Entries (dirs : List Nat) : List (Nat × Nat) :=
  srcT4Go dirs (dirs.sum + dirs.length + 1) 0 0

end Bsa

namespace Bsa

/-! ## FO4 BA2 (`crates/fo4-ba2/src/raw.rs`, `crates/fo4-ba2/src/read.rs`) -/

/-- The `ReadError` cases of `crates/fo4-ba2/src/lib.rs` reachable below,
plus `eof` for a failing `read_exact`.  The spec's error taxonomy names the
sentinel case `BadSentinel`; the source names it `InvalidChunkSentinel`. -/
inductive Fo4Err where
  | eof
  | invalidMagic (m : List Nat)
  | invalidVersion (v : Nat)
  | unsupportedFormat (f : List Nat)
  | invalidChunkSize (s : Nat)
  | invalidChunkSentinel (s : Nat)
  deriving DecidableEq, Repr

/-- Rust `Format` from `crates/fo4-ba2/src/raw.rs`. -/
inductive Fo4Format where
  | general
  | directX
  deriving DecidableEq, Repr

/-- The validated `Header` of `crates/fo4-ba2/src/raw.rs` (version is always
`V1` once validated, so only the remaining fields are kept). -/
structure Fo4Header where
  format : Fo4Format
  fileCount : Nat
  stringTableOffset : Option Nat
  deriving DecidableEq, Repr

/-- Rust `TryFrom<RawHeader> for Header`: check the `BTDX` magic, version 1, and
the `GNRL`/`DX10` format tag; a zero string-table offset becomes `none`. -/
def fo4HeaderTryFrom (b : List Nat) : Except Fo4Err Fo4Header :=
  if b.take 4 ≠ [66, 84, 68, 88] then .error (.invalidMagic (b.take 4))
  else
    let version := leNat ((b.drop 4).take 4)
    if version ≠ 1 then .error (.invalidVersion version)
    else
      let fmtB := (b.drop 8).take 4
      match
        (if fmtB = [71, 78, 82, 76] then some Fo4Format.general
         else if fmtB = [68, 88, 49, 48] then some Fo4Format.directX
         else none) with
      | none => .error (.unsupportedFormat fmtB)
      | some fmt =>
        let fileCount := leNat ((b.drop 12).take 4)
        let sto := leNat ((b.drop 16).take 8)
        .ok { format := fmt, fileCount := fileCount,
              stringTableOffset := if sto = 0 then none else some sto }

/-- Rust `RawGeneralChunkData`: 20 on-wire bytes `(u64, u32, u32, u32)`. -/
structure RawGeneralChunkData where
  dataFileOffset : Nat
  compressedSize : Nat
  decompressedSize : Nat
  sentinel : Nat
  deriving DecidableEq, Repr

/-- The validated `GeneralChunkData` (`compressed_size` is
`Option<NonZeroU32>`: zero means stored). -/
structure GeneralChunkData where
  dataFileOffset : Nat
  compressedSize : Option Nat
  decompressedSize : Nat
  deriving DecidableEq, Repr

/-- Rust `TryFrom<RawGeneralChunkData> for GeneralChunkData`: reject any sentinel
other than `0xBAADF00D`. -/
def generalChunkDataTryFrom (raw : RawGeneralChunkData) :
    Except Fo4Err GeneralChunkData :=
  if raw.sentinel ≠ 0xBAADF00D then .error (.invalidChunkSentinel raw.sentinel)
  else
    .ok { dataFileOffset := raw.dataFileOffset
          compressedSize := if raw.compressedSize = 0 then none else some raw.compressedSize
          decompressedSize := raw.decompressedSize }

/-- Rust `RawDirectXChunkData`: 24 on-wire bytes `(u64, u32, u32, u16, u16, u32)`. -/
structure RawDirectXChunkData where
  dataFileOffset : Nat
  compressedSize : Nat
  decompressedSize : Nat
  mipFirst : Nat
  mipLast : Nat
  sentinel : Nat
  deriving DecidableEq, Repr

/-- The validated `DirectXChunkData`. -/
structure DirectXChunkData where
  dataFileOffset : Nat
  compressedSize : Option Nat
  decompressedSize : Nat
  mipFirst : Nat
  mipLast : Nat
  deriving DecidableEq, Repr

/-- Rust `TryFrom<RawDirectXChunkData> for DirectXChunkData`: reject any sentinel
other than `0xBAADF00D`. -/
def directXChunkDataTryFrom (raw : RawDirectXChunkData) :
    Except Fo4Err DirectXChunkData :=
  if raw.sentinel ≠ 0xBAADF00D then .error (.invalidChunkSentinel raw.sentinel)
  else
    .ok { dataFileOffset := raw.dataFileOffset
          compressedSize := if raw.compressedSize = 0 then none else some raw.compressedSize
          decompressedSize := raw.decompressedSize
          mipFirst := raw.mipFirst
          mipLast := raw.mipLast }

/-- The validated `GeneralChunkHeader` (the 12-byte hash triple kept as its
three `u32` components). -/
structure GeneralChunkHeader where
  idFile : Nat
  idExt : Nat
  idDir : Nat
  dataFileIndex : Nat
  chunkCount : Nat
  deriving DecidableEq, Repr

/-- The validated `DirectXChunkHeader`. -/
structure DirectXChunkHeader where
  idFile : Nat
  idExt : Nat
  idDir : Nat
  dataFileIndex : Nat
  chunkCount : Nat
  height : Nat
  width : Nat
  mipCount : Nat
  format : Nat
  flags : Nat
  tileMode : Nat
  deriving DecidableEq, Repr

/-- Decode a `RawGeneralChunkHeader` from its 16 on-wire bytes and apply
`TryFrom`: the `chunk_size` field must equal `GENERAL_CHUNK_SIZE` (16). -/
def generalChunkHeaderOfBytes (b : List Nat) : Except Fo4Err GeneralChunkHeader :=
  let chunkSize := leNat ((b.drop 14).take 2)
  if chunkSize ≠ 16 then .error (.invalidChunkSize chunkSize)
  else
    .ok { idFile := leNat (b.take 4), idExt := leNat ((b.drop 4).take 4)
          idDir := leNat ((b.drop 8).take 4), dataFileIndex := b.getD 12 0
          chunkCount := b.getD 13 0 }

/-- Decode a `RawDirectXChunkHeader` from its 24 on-wire bytes and apply
`TryFrom`: the `chunk_size` field must equal `DX10_CHUNK_SIZE` (24). -/
def directXChunkHeaderOfBytes (b : List Nat) : Except Fo4Err DirectXChunkHeader :=
  let chunkSize := leNat ((b.drop 14).take 2)
  if chunkSize ≠ 24 then .error (.invalidChunkSize chunkSize)
  else
    .ok { idFile := leNat (b.take 4), idExt := leNat ((b.drop 4).take 4)
          idDir := leNat ((b.drop 8).take 4), dataFileIndex := b.getD 12 0
          chunkCount := b.getD 13 0
          height := leNat ((b.drop 16).take 2), width := leNat ((b.drop 18).take 2)
          mipCount := b.getD 20 0, format := b.getD 21 0
          flags := b.getD 22 0, tileMode := b.getD 23 0 }

/-- Decode a `RawGeneralChunkData` from its 20 on-wire bytes. -/
def rawGeneralDataOfBytes (b : List Nat) : RawGeneralChunkData :=
  { dataFileOffset := leNat (b.take 8), compressedSize := leNat ((b.drop 8).take 4)
    decompressedSize := leNat ((b.drop 12).take 4), sentinel := leNat ((b.drop 16).take 4) }

/-- Decode a `RawDirectXChunkData` from its 24 on-wire bytes. -/
def rawDirectXDataOfBytes (b : List Nat) : RawDirectXChunkData :=
  { dataFileOffset := leNat (b.take 8), compressedSize := leNat ((b.drop 8).take 4)
    decompressedSize := leNat ((b.drop 12).take 4), mipFirst := leNat ((b.drop 16).take 2)
    mipLast := leNat ((b.drop 18).take 2), sentinel := leNat ((b.drop 20).take 4) }

/-- Rust `read_general_chunk`: read the 16-byte header, then `chunk_count` raw
20-byte data records (`read_smallvec`), then convert each in order. -/
def parseGeneralEntry (data : List Nat) (pos : Nat) :
    Except Fo4Err ((GeneralChunkHeader × List GeneralChunkData) × Nat) := do
  match readVecAt data pos 16 with
  | none => .error .eof
  | some hb =>
    let header ← generalChunkHeaderOfBytes hb
    match readVecAt data (pos + 16) (20 * header.chunkCount) with
    | none => .error .eof
    | some db =>
      let raws := (List.range header.chunkCount).map fun i =>
        rawGeneralDataOfBytes ((db.drop (20 * i)).take 20)
      let converted ← raws.mapM generalChunkDataTryFrom
      return ((header, converted), pos + 16 + 20 * header.chunkCount)

/-- Rust `read_directx_chunk`: read the 24-byte header, then `chunk_count` raw
24-byte data records, then convert each in order. -/
def parseDirectXEntry (data : List Nat) (pos : Nat) :
    Except Fo4Err ((DirectXChunkHeader × List DirectXChunkData) × Nat) := do
  match readVecAt data pos 24 with
  | none => .error .eof
  | some hb =>
    let header ← directXChunkHeaderOfBytes hb
    match readVecAt data (pos + 24) (24 * header.chunkCount) with
    | none => .error .eof
    | some db =>
      let raws := (List.range header.chunkCount).map fun i =>
        rawDirectXDataOfBytes ((db.drop (24 * i)).take 24)
      let converted ← raws.mapM directXChunkDataTryFrom
      return ((header, converted), pos + 24 + 24 * header.chunkCount)

/-- Rust `read_general_chunks`: `n` consecutive general entries. -/
def parseGeneralEntries (data : List Nat) :
    Nat → Nat → Except Fo4Err (List (GeneralChunkHeader × List GeneralChunkData) × Nat)
  | 0, pos => .ok ([], pos)
  | n + 1, pos => do
    let (e, pos1) ← parseGeneralEntry data pos
    let (rest, pos2) ← parseGeneralEntries data n pos1
    return (e :: rest, pos2)

/-- Rust `read_directx_chunks`: `n` consecutive DX10 entries. -/
def parseDirectXEntries (data : List Nat) :
    Nat → Nat → Except Fo4Err (List (DirectXChunkHeader × List DirectXChunkData) × Nat)
  | 0, pos => .ok ([], pos)
  | n + 1, pos => do
    let (e, pos1) ← parseDirectXEntry data pos
    let (rest, pos2) ← parseDirectXEntries data n pos1
    return (e :: rest, pos2)

/-- Rust `read_wstring`: a `u16` little-endian length followed by that many bytes. -/
def readWString (data : List Nat) (pos : Nat) : Except Fo4Err (List Nat × Nat) :=
  match readVecAt data pos 2 with
  | none => .error .eof
  | some lb =>
    let len := leNat lb
    match readVecAt data (pos + 2) len with
    | none => .error .eof
    | some s => .ok (s, pos + 2 + len)

/-- Rust `read_string_table`: seek to the table offset and read `n` wstrings. -/
def readStringTable (data : List Nat) :
    Nat → Nat → Except Fo4Err (List (List Nat))
  | 0, _ => .ok []
  | n + 1, pos => do
    let (s, pos1) ← readWString data pos
    let rest ← readStringTable data n pos1
    return s :: rest

/-- Rust `Ba2Chunks`: the parsed chunk arrays of either variant. -/
inductive Ba2Chunks where
  | general (es : List (GeneralChunkHeader × List GeneralChunkData))
  | directX (es : List (DirectXChunkHeader × List DirectXChunkData))
  deriving DecidableEq, Repr

/-- The parsed state of `Ba2Inner`. -/
structure Ba2Archive where
  chunks : Ba2Chunks
  strings : Option (List (List Nat))
  deriving DecidableEq, Repr

/-- The result of `Ba2Inner::new`, with the panic of the
`strings.as_ref().unwrap()` debug loop represented explicitly. -/
inductive Ba2OpenResult where
  | ok (a : Ba2Archive)
  | err (e : Fo4Err)
  | panicked
  deriving DecidableEq, Repr

/-- Rust `Ba2Inner::new` from `crates/fo4-ba2/src/read.rs`: read and validate the
24-byte header, read the chunk region for the tagged format, read the string
table if its offset is non-zero — and then run the
`for s in strings.as_ref().unwrap() { println!(..) }` loop, which panics
whenever the string table is absent. -/
def ba2New (data : List Nat) : Ba2OpenResult :=
  match readVecAt data 0 24 with
  | none => .err .eof
  | some hb =>
    match fo4HeaderTryFrom hb with
    | .error e => .err e
    | .ok h =>
      let chunksR : Except Fo4Err Ba2Chunks :=
        match h.format with
        | .general => (parseGeneralEntries data h.fileCount 24).map fun p => .general p.1
        | .directX => (parseDirectXEntries data h.fileCount 24).map fun p => .directX p.1
      match chunksR with
      | .error e => .err e
      | .ok chunks =>
        match h.stringTableOffset with
        | some off =>
          match readStringTable data h.fileCount off with
          | .error e => .err e
          | .ok ss => .ok { chunks := chunks, strings := some ss }
        | none => .panicked

end Bsa

namespace Bsa

/-! ## Claim-side descriptions (for comparison with the code) -/

/-- The normalization pass described by claim C4: every byte is normalized
up front, failing if any byte is non-ASCII or NUL. -/
def tes3NormAll : List Nat → Option (List Nat)
  | [] => some []
  | b :: rest =>
    match tes3NormByte b with
    | none => none
    | some nb => (tes3NormAll rest).map (nb :: ·)

/-- The low half as described by claim C4: a pure fold of
`acc[i mod 4] ^= b` over an already-normalized byte list. -/
def tes3SpecLowAcc (nb : List Nat) : List Nat :=
  nb.enum.foldl (fun acc p => tes3LowStep acc p.1 p.2) [0, 0, 0, 0]

/-- The high half as described by claim C4: a pure fold of
`acc = (acc ^ t).rotate_right(t & 0x1F)` with `t = b << ((i mod 4) * 8)`
over an already-normalized byte list, starting from 0. -/
def tes3SpecHigh (nb : List Nat) : Nat :=
  nb.enum.foldl (fun high p => tes3HighStep high p.1 p.2) 0

/-- The TES3 hash as described by claim C4 (and §4.3 of the spec): normalize
all bytes first, split the normalized string at `floor(len/2)`, fold each
half, and combine as `low | (high << 32)`. -/
def tes3SpecHash (bytes : List Nat) : Option Nat :=
  match tes3NormAll bytes with
  | none => none
  | some nb =>
    let first := nb.take (nb.length / 2)
    let second := nb.drop (nb.length / 2)
    some (leU32 (tes3SpecLowAcc first) ||| (tes3SpecHigh second <<< 32))

/-- The Windows-1252 lowercase fold as described by the amended claim C8:
ASCII `A..Z` and the bytes `0xC0..0xDF` except `0xD7` move by `+0x20`
(so `ß` at `0xDF` maps to `ÿ` at `0xFF` as well), the bytes
`0x8A/0x8C/0x8E` move by `+0x10`, and every other byte is unchanged. -/
def win1252LowerAmendedC8 (b : Nat) : Nat :=
  if 65 ≤ b ∧ b ≤ 90 then b + 0x20
  else if b = 0x8a ∨ b = 0x8c ∨ b = 0x8e then b + 0x10
  else if 0xc0 ≤ b ∧ b ≤ 0xdf ∧ b ≠ 0xd7 then b + 0x20
  else b

/-! ## Concrete instances used by the theorems -/

/-- The two-entry input of claim C1, as (path bytes, payload). -/
def c1Input : List (List Nat × List Nat) :=
  [(("textures/a.dds").toList.map Char.toNat, [0, 1]),
   (("meshes/b.nif").toList.map Char.toNat, [255])]

/-- The 83 bytes the TES3 writer emits for `c1Input`: the 12-byte header
(magic `0x100`, hash-table offset 52, count 2), the records `(1,0)` and
`(2,1)`, the name offsets 0 and 13, the NUL-terminated names
`meshes\b.nif` and `textures\a.dds`, the two hashes in rotate-key order,
and the payloads `[255]` and `[0,1]`. -/
def c1Expected : List Nat :=
  [0, 1, 0, 0, 52, 0, 0, 0, 2, 0, 0, 0,
   1, 0, 0, 0, 0, 0, 0, 0, 2, 0, 0, 0, 1, 0, 0, 0,
   0, 0, 0, 0, 13, 0, 0, 0,
   109, 101, 115, 104, 101, 115, 92, 98, 46, 110, 105, 102, 0,
   116, 101, 120, 116, 117, 114, 101, 115, 92, 97, 46, 100, 100, 115, 0,
   8, 22, 115, 104, 51, 113, 183, 212,
   1, 23, 29, 116, 198, 151, 149, 66,
   255, 0, 1]

/-- An input of length 260 whose normalized path is just `a`: one letter
followed by 259 separators. -/
def c2LongSlashes : List Char :=
  'a' :: List.replicate 259 '/'

/-- 260 letters: an input whose normalized path has length 260. -/
def c2LongLetters : List Char :=
  List.replicate 260 'a'

/-- A minimal valid GNRL archive whose string-table offset is zero:
`BTDX`, version 1, `GNRL`, one file, offset 0; one chunk header
(`chunk_count` 1, `chunk_size` 16) and one chunk record with the good
sentinel `0xBAADF00D`. -/
def c7Archive : List Nat :=
  [66, 84, 68, 88] ++ [1, 0, 0, 0] ++ [71, 78, 82, 76] ++ [1, 0, 0, 0] ++
    [0, 0, 0, 0, 0, 0, 0, 0] ++
    (List.replicate 12 0 ++ [0, 1] ++ [16, 0]) ++
    (List.replicate 16 0 ++ [13, 240, 173, 186])

/-- A DX10 archive whose first chunk record carries the sentinel
`0xDEADBEEF`: `BTDX`, version 1, `DX10`, one file; one chunk header
(`chunk_count` 1, `chunk_size` 24) and one chunk record ending in
`EF BE AD DE`. -/
def c6BadArchive : List Nat :=
  [66, 84, 68, 88] ++ [1, 0, 0, 0] ++ [68, 88, 49, 48] ++ [1, 0, 0, 0] ++
    [0, 0, 0, 0, 0, 0, 0, 0] ++
    (List.replicate 12 0 ++ [0, 1] ++ [24, 0] ++ List.replicate 8 0) ++
    (List.replicate 20 0 ++ [239, 190, 173, 222])

end Bsa

namespace Bsa

/-! ## TES3 hash, second implementation (`versions/v0/raw/tes3.rs`) -/

/-- The byte normalizer closure of `compute_hash` in
`versions/v0/raw/tes3.rs`: it is TOTAL — `/` maps to `\`, every other byte
is ASCII-lowercased in place, and nothing is rejected. -/
def v0NormByte (b : Nat) : Nat :=
  if b = 47 then 92 else asciiLower b

/-- Rust `compute_hash` from `versions/v0/raw/tes3.rs`: the same
split-xor-rotate computation, but with the total normalizer, so it is
defined on every byte string. -/
def v0ComputeHash (bytes : List Nat) : Nat :=
  let first := bytes.take (bytes.length / 2)
  let second := bytes.drop (bytes.length / 2)
  let low :=
    leU32 (first.enum.foldl (fun acc p => tes3LowStep acc p.1 (v0NormByte p.2)) [0, 0, 0, 0])
  let high := second.enum.foldl (fun h p => tes3HighStep h p.1 (v0NormByte p.2)) 0
  low ||| (high <<< 32)

/-- Rust `Hash::from_bytes` from `versions/v0/raw/tes3.rs`: reject only
non-ASCII input (`!bytes.is_ascii()`); NUL is ASCII, so NUL-containing
strings are hashed. -/
def v0HashFromBytes (bytes : List Nat) : Option Nat :=
  if bytes.any (fun b => 128 ≤ b) then none else some (v0ComputeHash bytes)

end Bsa

namespace Bsa

/-- C1: the TES3 writer, given exactly the entries `textures/a.dds ->
[0x00,0x01]` and `meshes/b.nif -> [0xFF]`, emits the 83-byte archive
`c1Expected` — 12-byte header, two 8-byte records, two 4-byte name offsets,
the NUL-terminated names, the two hashes in rotate-key order, then the
payloads — but parsing those very bytes with the TES3 reader of the same
crate (`Bsa::new` in `src/src/read/tes3/bsa.rs`) does NOT restore the
name-to-content mapping: it fails with `BadOffset`, because the reader
sizes its metadata buffer as `8 * file_count + 12` instead of
`hash_table_offset + 8 * file_count`. -/
theorem c1_writer_layout_reader_rejects :
    tes3WriterOutput c1Input = some c1Expected ∧
    srcTes3BsaNew c1Expected = .error .badOffset := by
  exact ⟨by rfl, by rfl⟩

/-- C3: the two TES4 filename-hash values of the spec scenario. -/
theorem c3_hash_file_name_values :
    hashFileName (("fxambblowingfog01.nif").toList) =
      some ⟨49, 176, 17, 102, 17588009⟩ ∧
    hashFileName (("dog.dds").toList) =
      some ⟨231, 239, 3, 100, 2379983301⟩ := by
  exact ⟨by rfl, by rfl⟩

/-- C5: on the archive emitted for `c1Input` (hash-table offset 52, two
files), the `versions/v0` reader computes the absolute payload position of
the first record as `2*8 + 52 + 0 = 68` — twelve bytes short of the true
data region at `12 + 52 + 2*8 = 80` — so it reads hash-table bytes (`51`)
instead of the payload (`255`); the `src/src/read/tes3` reader seeks to the
bare record offset `0` and reads a header byte. -/
theorem c5_data_region_offset_bug :
    v0DataOffset 2 52 = some 68 ∧
    v0FileOffset 0 68 = some 68 ∧
    (c1Expected.drop 68).take 1 = [51] ∧
    (c1Expected.drop 80).take 1 = [255] ∧
    srcTes3ByIndexRaw c1Expected (0, 1) = [0] ∧
    (68 : Nat) ≠ 12 + 52 + 2 * 8 + 0 := by
  refine ⟨by rfl, by rfl, by rfl, by rfl, by rfl, by decide⟩

/-- C6: converting any FO4 chunk-data record whose sentinel differs from
`0xBAADF00D` fails with the sentinel error (the spec taxonomy's
`BadSentinel`), for both the GNRL and DX10 variants; conversely a record
that converts successfully has sentinel exactly `0xBAADF00D`; and the
concrete DX10 archive whose first chunk carries `0xDEADBEEF` fails open
with that error. -/
theorem c6_sentinel_checked :
    (∀ raw : RawGeneralChunkData, raw.sentinel ≠ 0xBAADF00D →
      generalChunkDataTryFrom raw = .error (.invalidChunkSentinel raw.sentinel)) ∧
    (∀ raw : RawDirectXChunkData, raw.sentinel ≠ 0xBAADF00D →
      directXChunkDataTryFrom raw = .error (.invalidChunkSentinel raw.sentinel)) ∧
    (∀ (raw : RawGeneralChunkData) (d : GeneralChunkData),
      generalChunkDataTryFrom raw = .ok d → raw.sentinel = 0xBAADF00D) ∧
    (∀ (raw : RawDirectXChunkData) (d : DirectXChunkData),
      directXChunkDataTryFrom raw = .ok d → raw.sentinel = 0xBAADF00D) ∧
    ba2New c6BadArchive = .err (.invalidChunkSentinel 0xDEADBEEF) := by
  refine ⟨?_, ?_, ?_, ?_, by rfl⟩
  · intro raw h
    simp [generalChunkDataTryFrom, h]
  · intro raw h
    simp [directXChunkDataTryFrom, h]
  · intro raw d h
    by_contra hs
    simp [generalChunkDataTryFrom, hs] at h
  · intro raw d h
    by_contra hs
    simp [directXChunkDataTryFrom, hs] at h

/-- Witness for C6: the first conjunct applied to a concrete GNRL chunk
record with sentinel `0xDEADBEEF`. -/
theorem c6_sentinel_checked_witness :
    (0xDEADBEEF : Nat) ≠ 0xBAADF00D ∧
    generalChunkDataTryFrom ⟨0, 0, 0, 0xDEADBEEF⟩ =
      .error (.invalidChunkSentinel 0xDEADBEEF) :=
  ⟨by decide, c6_sentinel_checked.1 ⟨0, 0, 0, 0xDEADBEEF⟩ (by decide)⟩

/-- C7: a valid GNRL archive whose header string-table offset is 0 parses a
valid header (names absent), but `Ba2Inner::new` then PANICS on the
`strings.as_ref().unwrap()` of its leftover debug-print loop instead of
succeeding. -/
theorem c7_zero_string_table_panics :
    fo4HeaderTryFrom (c7Archive.take 24) =
      .ok { format := .general, fileCount := 1, stringTableOffset := none } ∧
    ba2New c7Archive = .panicked := by
  exact ⟨by rfl, by rfl⟩

/-- Counterexample to C8 as stated: the `versions/v0` fold moves `0xDF`
(`ß`) to `0xFF` (`ÿ`) although the claim lists only `0xC0..0xDE` minus
`0xD7` and says every other byte is unchanged; and the `backup/gen0` copy
leaves `0x8E` (`Ž`) unchanged although the claim maps it to `0x9E`. -/
theorem c8_counterexample :
    win1252ToLowercaseV0 0xDF = 0xFF ∧ (0xFF : Nat) ≠ 0xDF ∧
    win1252ToLowercaseGen0 0x8E = 0x8E ∧ (0x8E : Nat) ≠ 0x8E + 0x10 := by
  decide

/-- C8 amended: the `versions/v0` Windows-1252 fold maps exactly ASCII
`A..Z` by `+0x20`, the bytes `0x8A/0x8C/0x8E` by `+0x10`, and every byte in
`0xC0..0xDF` except `0xD7` by `+0x20` (so `0xDF` maps to `0xFF` as well);
every other byte is unchanged. -/
theorem c8_amended_fold :
    ∀ b, win1252ToLowercaseV0 b = win1252LowerAmendedC8 b := by
  intro b
  unfold win1252ToLowercaseV0 win1252LowerAmendedC8
  split_ifs <;> omega

/-- C9: the `versions/v0` TES3 entry iterator pre-increments its index, so
an archive of 1 file yields no entries and an archive of 3 files yields
only indices 1 and 2 (the first file is never yielded); the
`crates/tes4-bsa` iterator skips file 0 of every directory after the first,
so two single-file directories yield one entry instead of two; the
`src/src/tes4` iterator yields every file exactly once. -/
theorem c9_iterators_skip_entries :
    v0FilesList 1 = [] ∧
    v0FilesList 3 = [1, 2] ∧
    t4Entries [1, 1] = [(0, 0)] ∧
    t4Entries [1, 2] = [(0, 0), (1, 1)] ∧
    srcT4Entries [1, 1] = [(0, 0), (1, 0)] ∧
    srcT4Entries [2, 3] = [(0, 0), (0, 1), (1, 0), (1, 1), (1, 2)] := by
  decide

/-- Counterexample to C10 as stated: on the name `a.b.c` the
`crates/tes4-bsa` hasher (split at the LAST dot) and the `src/src/tes4`
hasher (split at the FIRST dot) disagree. -/
theorem c10_counterexample :
    hashFileNameBytes [97, 46, 98, 46, 99] = some ⟨98, 46, 3, 97, 3017653⟩ ∧
    fromFilename [97, 46, 98, 46, 99] = some ⟨97, 0, 1, 97, 2359917929⟩ ∧
    hashFileNameBytes [97, 46, 98, 46, 99] ≠ fromFilename [97, 46, 98, 46, 99] := by
  decide

end Bsa

namespace Bsa

set_option maxRecDepth 40000 in
/-- Counterexample to C2 as stated: the input `a` followed by 259 separators
has length 260 yet hashes successfully (to the hash of the normalized path
`a`), because the 260-byte bound of `hash_directory_name` is applied to the
NORMALIZED path, not to the input. -/
theorem c2_counterexample_long_input :
    c2LongSlashes.length = 260 ∧
    hashDirectoryName c2LongSlashes = some ⟨97, 0, 1, 97, 0⟩ := by
  exact ⟨by rfl, by rfl⟩

/-- C2 amended: any input whose NORMALIZED path has length at least 260
yields none; and the listed concrete inputs hash exactly as the claim
states (the four equivalent spellings to the one hash record, the five
invalid inputs to none). -/
theorem c2_directory_hash_amended :
    (∀ (s : List Char) (p : List Nat),
      normalizePath s = some p → 260 ≤ p.length → hashDirectoryName s = none) ∧
    hashDirectoryName (("meshes/dungeons/mines/caveshaft").toList) =
      some ⟨116, 102, 31, 109, 743299860⟩ ∧
    hashDirectoryName (("meshes\\dungeons\\mines\\caveshaft").toList) =
      some ⟨116, 102, 31, 109, 743299860⟩ ∧
    hashDirectoryName (("meshes/DUNGEONS\\mines\\CAVEshaft").toList) =
      some ⟨116, 102, 31, 109, 743299860⟩ ∧
    hashDirectoryName (("meshes/DUNGEONS\\\\\\mines\\CAVEshaft/").toList) =
      some ⟨116, 102, 31, 109, 743299860⟩ ∧
    hashDirectoryName (("meshes/../dungeons/caveshaft").toList) = none ∧
    hashDirectoryName (("/meshes/").toList) = none ∧
    hashDirectoryName (("meshes/🚀").toList) = none ∧
    hashDirectoryName (("meshes/./caves").toList) = none ∧
    hashDirectoryName [] = none := by
  refine ⟨?_, by rfl, by rfl, by rfl, by rfl, by rfl, by rfl, by rfl, by rfl, by rfl⟩
  intro s p hp hl
  simp only [hashDirectoryName, hp]
  simp [hl]

set_option maxRecDepth 40000 in
/-- Witness for C2: the quantified conjunct applied to 260 letters, whose
normalized path has length 260. -/
theorem c2_directory_hash_amended_witness :
    normalizePath c2LongLetters = some (List.replicate 260 97) ∧
    260 ≤ (List.replicate 260 (97 : Nat)).length ∧
    hashDirectoryName c2LongLetters = none :=
  ⟨by rfl, by simp,
    c2_directory_hash_amended.1 c2LongLetters (List.replicate 260 97)
      (by rfl) (by simp)⟩

end Bsa


namespace Bsa

/-- The interleaved low-half loop of `compute_hash` equals
normalize-everything-first followed by the pure fold. -/
theorem tes3LowGo_eq_spec (l : List Nat) :
    ∀ i acc, tes3LowGo l i acc =
      (tes3NormAll l).map
        (fun nl => (nl.enumFrom i).foldl (fun a p => tes3LowStep a p.1 p.2) acc) := by
  induction l with
  | nil => intro i acc; rfl
  | cons b rest ih =>
    intro i acc
    cases h : tes3NormByte b with
    | none => simp [tes3LowGo, tes3NormAll, h]
    | some nb =>
      simp only [tes3LowGo, tes3NormAll, h]
      rw [ih (i + 1) (tes3LowStep acc i nb)]
      cases tes3NormAll rest <;> rfl

/-- The interleaved high-half loop of `compute_hash` equals
normalize-everything-first followed by the pure fold. -/
theorem tes3HighGo_eq_spec (l : List Nat) :
    ∀ i high, tes3HighGo l i high =
      (tes3NormAll l).map
        (fun nl => (nl.enumFrom i).foldl (fun a p => tes3HighStep a p.1 p.2) high) := by
  induction l with
  | nil => intro i high; rfl
  | cons b rest ih =>
    intro i high
    cases h : tes3NormByte b with
    | none => simp [tes3HighGo, tes3NormAll, h]
    | some nb =>
      simp only [tes3HighGo, tes3NormAll, h]
      rw [ih (i + 1) (tes3HighStep high i nb)]
      cases tes3NormAll rest <;> rfl

/-- Per-byte normalization distributes over list append. -/
theorem tes3NormAll_append (a b : List Nat) :
    tes3NormAll (a ++ b) =
      match tes3NormAll a, tes3NormAll b with
      | some x, some y => some (x ++ y)
      | _, _ => none := by
  induction a with
  | nil =>
    simp only [List.nil_append, tes3NormAll]
    cases tes3NormAll b <;> rfl
  | cons c rest ih =>
    cases h : tes3NormByte c with
    | none => simp [tes3NormAll, h]
    | some nc =>
      cases htr : tes3NormAll rest with
      | none =>
        have hrb : tes3NormAll (rest ++ b) = none := by
          rw [ih, htr]
        simp [tes3NormAll, h, htr, hrb, List.append_eq]
      | some x =>
        cases htb : tes3NormAll b with
        | none =>
          have hrb : tes3NormAll (rest ++ b) = none := by rw [ih, htr, htb]
          simp [tes3NormAll, h, htr, htb, hrb, List.append_eq]
        | some y =>
          have hrb : tes3NormAll (rest ++ b) = some (x ++ y) := by rw [ih, htr, htb]
          simp [tes3NormAll, h, htr, htb, hrb, List.append_eq]

/-- Per-byte normalization preserves length. -/
theorem tes3NormAll_length (l : List Nat) :
    ∀ nl, tes3NormAll l = some nl → nl.length = l.length := by
  induction l with
  | nil =>
    intro nl h
    simp only [tes3NormAll, Option.some.injEq] at h
    rw [← h]
  | cons b rest ih =>
    intro nl h
    simp only [tes3NormAll] at h
    cases hb : tes3NormByte b with
    | none => rw [hb] at h; cases h
    | some nb =>
      rw [hb] at h
      cases hr : tes3NormAll rest with
      | none => rw [hr] at h; cases h
      | some x =>
        rw [hr] at h
        have hx : nl = nb :: x := by simpa using h.symm
        subst hx
        simp [ih x hr]

end Bsa

namespace Bsa

/-- Helper for C4: `compute_hash` from `src/src/tes3/mod.rs` computes
exactly the normalize-split-fold value `tes3SpecHash` on every input. -/
theorem tes3ComputeHash_eq_spec :
    ∀ bytes : List Nat, tes3ComputeHash bytes = tes3SpecHash bytes := by
  intro bytes
  simp only [tes3ComputeHash, tes3LowGo_eq_spec, tes3HighGo_eq_spec]
  cases hf : tes3NormAll (bytes.take (bytes.length / 2)) with
  | none =>
    have hb : tes3NormAll bytes = none := by
      conv_lhs => rw [← List.take_append_drop (bytes.length / 2) bytes]
      rw [tes3NormAll_append, hf]
    simp [tes3SpecHash, hb]
  | some x =>
    cases hs : tes3NormAll (bytes.drop (bytes.length / 2)) with
    | none =>
      have hb : tes3NormAll bytes = none := by
        conv_lhs => rw [← List.take_append_drop (bytes.length / 2) bytes]
        rw [tes3NormAll_append, hf, hs]
      simp [tes3SpecHash, hb]
    | some y =>
      have hb : tes3NormAll bytes = some (x ++ y) := by
        conv_lhs => rw [← List.take_append_drop (bytes.length / 2) bytes]
        rw [tes3NormAll_append, hf, hs]
      have hxlen : x.length = bytes.length / 2 := by
        have h1 := tes3NormAll_length _ _ hf
        rw [List.length_take] at h1
        have h2 : bytes.length / 2 ≤ bytes.length := Nat.div_le_self _ _
        omega
      have hylen : y.length = bytes.length - bytes.length / 2 := by
        have h1 := tes3NormAll_length _ _ hs
        rw [List.length_drop] at h1
        exact h1
      have hhalf : (x ++ y).length / 2 = x.length := by
        rw [List.length_append, hxlen, hylen]
        omega
      simp only [tes3SpecHash, hb, hhalf, List.take_left, List.drop_left,
        tes3SpecLowAcc, tes3SpecHigh]
      rfl

end Bsa

namespace Bsa

/-- The two crc accumulators (`byte + crc * K` and `crc * K + byte`) agree. -/
theorem crc32_eq_crc32Src (l : List Nat) : crc32 l = crc32Src l := by
  unfold crc32 crc32Src
  congr 1
  funext crc b
  rw [Nat.add_comm]

/-- On a name with at most one dot, splitting at the first dot and at the
last dot coincide. -/
theorem splitExt_agree (name : List Nat) (h : name.count 46 ≤ 1) :
    splitExtFirst name = splitExtLast name := by
  by_cases hm : 46 ∈ name
  · obtain ⟨s, t, rfl⟩ := List.append_of_mem hm
    have h1 : s.count 46 + ((46 :: t).count 46) ≤ 1 := by
      rw [← List.count_append]; exact h
    have h2 : (46 :: t).count 46 = t.count 46 + 1 := by simp [List.count_cons]
    have hs : 46 ∉ s := List.count_eq_zero.mp (by omega)
    have ht : 46 ∉ t := List.count_eq_zero.mp (by omega)
    have h3 : (s.findIdx? fun b => b = 46) = none := by
      rw [List.findIdx?_eq_none_iff]
      intro x hx
      by_contra hc
      simp at hc
      exact hs (hc ▸ hx)
    have h3r : (t.reverse.findIdx? fun b => b = 46) = none := by
      rw [List.findIdx?_eq_none_iff]
      intro x hx
      by_contra hc
      simp at hc
      subst hc
      exact ht (List.mem_reverse.mp hx)
    have hf : splitExtFirst (s ++ 46 :: t) = (s, 46 :: t) := by
      unfold splitExtFirst
      rw [List.findIdx?_append, h3]
      simp [List.findIdx?_cons]
    have hl : splitExtLast (s ++ 46 :: t) = (s, 46 :: t) := by
      unfold splitExtLast
      have hrev : (s ++ 46 :: t).reverse = t.reverse ++ 46 :: s.reverse := by simp
      rw [hrev, List.findIdx?_append, h3r]
      simp only [List.findIdx?_cons]
      norm_num
    rw [hf, hl]
  · have hf : (name.findIdx? fun b => b = 46) = none := by
      rw [List.findIdx?_eq_none_iff]
      intro x hx
      by_contra hc
      simp at hc
      exact hm (hc ▸ hx)
    have hr : (name.reverse.findIdx? fun b => b = 46) = none := by
      rw [List.findIdx?_eq_none_iff]
      intro x hx
      by_contra hc
      simp at hc
      subst hc
      exact hm (List.mem_reverse.mp hx)
    unfold splitExtFirst splitExtLast
    rw [hf, hr]

/-- When its guards hold, `Hash::from_dirname` computes exactly
`hash_directory_name_unchecked` (the crc accumulators agree). -/
theorem fromDirname_eq_unchecked (stem : List Nat)
    (g1 : stem.length < 255) (g2 : ∀ b ∈ stem, b < 128) (g3 : (0 : Nat) ∉ stem) :
    fromDirname stem = some (hashDirectoryNameUnchecked stem) := by
  unfold fromDirname hashDirectoryNameUnchecked
  rw [if_neg]
  · rw [← crc32_eq_crc32Src]
  · intro hor
    rcases hor with h1 | h2 | h3
    · omega
    · rw [List.any_eq_true] at h2
      obtain ⟨x, hx, hx2⟩ := h2
      have := g2 x hx
      simp at hx2
      omega
    · rw [List.contains_iff_exists_mem_beq] at h3
      obtain ⟨x, hx, hbeq⟩ := h3
      have : (0 : Nat) = x := by simpa using (beq_iff_eq ..).mp hbeq
      exact g3 (this ▸ hx)

/-- C10 amended: on a lowercase ASCII filename without NULs or separators
that contains AT MOST ONE dot (and meets the shared size bounds), the
`crates/tes4-bsa` filename hasher and the `src/src/tes4` filename hasher
agree; they differ in general because one splits the extension at the last
dot and the other at the first. -/
theorem c10_agree_single_dot (name : List Nat)
    (hlow : name.map asciiLower = name)
    (hascii : ∀ b ∈ name, b < 128)
    (hnul : (0 : Nat) ∉ name)
    (hsep : ∀ b ∈ name, b ≠ 92 ∧ b ≠ 47)
    (hdot : name.count 46 ≤ 1)
    (hstem : (splitExtLast name).1 ≠ [])
    (hslen : (splitExtLast name).1.length < 255)
    (helen : (splitExtLast name).2.length < 16) :
    hashFileNameBytes name = fromFilename name := by
  have hstemsub : ∀ b ∈ (splitExtLast name).1, b ∈ name := by
    unfold splitExtLast
    cases name.reverse.findIdx? (fun b => b = 46) with
    | none => intro b hb; exact hb
    | some j => intro b hb; exact List.mem_of_mem_take hb
  have hsepF : (name.any fun b => decide (b = 92 ∨ b = 47)) = false := by
    rw [List.any_eq_false]
    intro x hx
    rcases hsep x hx with ⟨h92, h47⟩
    simp [h92, h47]
  unfold hashFileNameBytes fromFilename
  rw [splitExt_agree name hdot, hlow]
  rw [if_neg (by rw [hsepF]; simp)]
  rw [if_neg (by push_neg; exact ⟨hstem, by omega, by omega⟩)]
  rw [if_pos ⟨hstem, by omega, by omega⟩]
  rw [fromDirname_eq_unchecked (splitExtLast name).1 hslen
    (fun b hb => hascii b (hstemsub b hb)) (fun h0 => hnul (hstemsub 0 h0))]
  unfold hashFileNameUnchecked
  rw [crc32_eq_crc32Src]
  cases extIndex (splitExtLast name).2 <;> rfl

/-- Witness for the amended C10: the two hashers agree on `dog.dds`. -/
theorem c10_agree_single_dot_witness :
    ([100, 111, 103, 46, 100, 100, 115] : List Nat).count 46 ≤ 1 ∧
    hashFileNameBytes [100, 111, 103, 46, 100, 100, 115] =
      fromFilename [100, 111, 103, 46, 100, 100, 115] :=
  ⟨by decide,
    c10_agree_single_dot [100, 111, 103, 46, 100, 100, 115]
      (by decide) (by decide) (by decide) (by decide) (by decide)
      (by decide) (by decide) (by decide)⟩

end Bsa

namespace Bsa

/-- On an ASCII non-NUL byte, the rejecting normalizer of
`src/src/tes3/mod.rs` agrees with the total normalizer of
`versions/v0/raw/tes3.rs`. -/
theorem tes3NormByte_of_ascii (b : Nat) (h1 : b < 128) (h2 : b ≠ 0) :
    tes3NormByte b = some (v0NormByte b) := by
  unfold tes3NormByte v0NormByte
  split_ifs <;> first | rfl | omega

/-- On a NUL-free ASCII byte string, the rejecting normalization pass
succeeds and equals the total byte-wise normalization. -/
theorem tes3NormAll_of_ascii :
    ∀ l : List Nat, (∀ b ∈ l, b < 128 ∧ b ≠ 0) →
      tes3NormAll l = some (l.map v0NormByte) := by
  intro l
  induction l with
  | nil => intro _; rfl
  | cons b rest ih =>
    intro h
    have hb := h b (List.mem_cons_self b rest)
    simp only [tes3NormAll, tes3NormByte_of_ascii b hb.1 hb.2]
    rw [ih (fun x hx => h x (List.mem_cons_of_mem b hx))]
    rfl

/-- Counterexample to C4 as stated: the claim covers both cited TES3 hash
implementations, but `compute_hash`/`Hash::from_bytes` from
`versions/v0/raw/tes3.rs` does NOT return none on a NUL byte (NUL is
ASCII, and its normalizer is total): the string `a\0` is hashed to 97,
while the `src/src/tes3/mod.rs` copy rejects it. -/
theorem c4_counterexample_v0_nul :
    v0HashFromBytes [97, 0] = some 97 ∧
    v0HashFromBytes [97, 0] ≠ none ∧
    tes3ComputeHash [97, 0] = none := by
  decide

/-- C4 amended: the claim's normalize-split-fold description (map `/` to
`\`, ASCII-lowercase, none on NUL or non-ASCII; split at `floor(len/2)`;
`acc[i mod 4] ^= b` little-endian for the low half;
`acc = (acc ^ t).rotate_right(t & 0x1F)` with `t = b << ((i mod 4) * 8)`
for the high half; combine as `low | (high << 32)`) holds of
`compute_hash` in `src/src/tes3/mod.rs` for EVERY input; the
`versions/v0/raw/tes3.rs` copy rejects only non-ASCII input (never NUL),
and on NUL-free ASCII input it computes exactly the described hash. -/
theorem c4_tes3_hash_amended :
    (∀ bytes : List Nat, tes3ComputeHash bytes = tes3SpecHash bytes) ∧
    (∀ bytes : List Nat, (∀ b ∈ bytes, b < 128 ∧ b ≠ 0) →
      v0HashFromBytes bytes = tes3SpecHash bytes) := by
  refine ⟨tes3ComputeHash_eq_spec, ?_⟩
  intro bytes h
  have hany : (bytes.any fun b => 128 ≤ b) = false := by
    rw [List.any_eq_false]
    intro x hx
    have := (h x hx).1
    simp
    omega
  unfold v0HashFromBytes
  rw [if_neg (by simp [hany])]
  unfold tes3SpecHash
  rw [tes3NormAll_of_ascii bytes h]
  congr 1
  unfold v0ComputeHash tes3SpecLowAcc tes3SpecHigh
  rw [List.length_map]
  rw [← List.map_take, ← List.map_drop]
  rw [List.enum_map, List.enum_map]
  rw [List.foldl_map, List.foldl_map]
  rfl

/-- Witness for the amended C4: the v0 hasher applied to the NUL-free
ASCII string `a` agrees with the described hash. -/
theorem c4_tes3_hash_amended_witness :
    (∀ b ∈ ([97] : List Nat), b < 128 ∧ b ≠ 0) ∧
    v0HashFromBytes [97] = tes3SpecHash [97] :=
  ⟨by decide, c4_tes3_hash_amended.2 [97] (by decide)⟩

end Bsa
